import Mathlib

/-!
Shallow embedding of the resnet preprocessing pipeline
(`src/funcs/utils.py`, `src/scripts/preprocess_resnet.py`,
`src/scripts/preprocess_resnet_neo4j_data.py`, `src/scripts/resnet_datasets.py`).

Text is modelled as `List Char`; a dataframe cell is `Cell` (null / string /
integer); a dataframe is a column-name list together with positional rows.
-/

namespace Resnet

/-- Whitespace recognised by Python's `str.strip`. -/
def isSpaceChar (c : Char) : Bool :=
  c = ' ' || c = '\t' || c = '\n' || c = '\r' || c = '\x0b' || c = '\x0c'

/-- Remove trailing whitespace (structural recursion from the left). -/
def stripRight : List Char → List Char
  | [] => []
  | c :: cs =>
    match stripRight cs with
    | [] => if isSpaceChar c then [] else [c]
    | r => c :: r

/-- Python `str.strip`: remove leading and trailing whitespace. -/
def strip (l : List Char) : List Char :=
  stripRight (l.dropWhile isSpaceChar)

/-- Python `s.split(sep)` for a single-character separator: always returns at
least one (possibly empty) part. -/
def splitOnChar (sep : Char) : List Char → List (List Char)
  | [] => [[]]
  | c :: cs =>
    let r := splitOnChar sep cs
    if c = sep then [] :: r
    else
      match r with
      | [] => [[c]]
      | h :: t => (c :: h) :: t

/-- Join parts with a single-character separator (inverse of `splitOnChar`). -/
def joinChar (sep : Char) : List (List Char) → List Char
  | [] => []
  | [p] => p
  | p :: q :: rest => p ++ sep :: joinChar sep (q :: rest)

/-- Fuel-driven scan for `replaceAll` (the fuel is an upper bound on the
input length, so it never runs out). -/
def replaceAllAux (p : Char) (ps sub : List Char) : Nat → List Char → List Char
  | _, [] => []
  | 0, c :: cs => c :: cs
  | fuel + 1, c :: cs =>
    if (p :: ps).isPrefixOf (c :: cs) then
      sub ++ replaceAllAux p ps sub fuel (cs.drop ps.length)
    else
      c :: replaceAllAux p ps sub fuel cs

/-- Replace every occurrence of the nonempty pattern `p :: ps` by `sub`,
scanning left to right (the semantics of `str.replace` / a literal regex). -/
def replaceAll (p : Char) (ps sub : List Char) (l : List Char) : List Char :=
  replaceAllAux p ps sub l.length l

/-- Python `x.replace('[','').replace(']','')`: delete all bracket characters. -/
def removeBrackets (l : List Char) : List Char :=
  l.filter (fun c => !(c == '[') && !(c == ']'))

/-- ASCII upper-casing of one character, modelling Python `str.upper` on the
ASCII data this pipeline carries. -/
def pyToUpper (c : Char) : Char :=
  match c with
  | 'a' => 'A' | 'b' => 'B' | 'c' => 'C' | 'd' => 'D' | 'e' => 'E'
  | 'f' => 'F' | 'g' => 'G' | 'h' => 'H' | 'i' => 'I' | 'j' => 'J'
  | 'k' => 'K' | 'l' => 'L' | 'm' => 'M' | 'n' => 'N' | 'o' => 'O'
  | 'p' => 'P' | 'q' => 'Q' | 'r' => 'R' | 's' => 'S' | 't' => 'T'
  | 'u' => 'U' | 'v' => 'V' | 'w' => 'W' | 'x' => 'X' | 'y' => 'Y'
  | 'z' => 'Z' | other => other

/-- Decimal digit to character. -/
def digitToChar (d : Nat) : Char :=
  match d with
  | 0 => '0' | 1 => '1' | 2 => '2' | 3 => '3' | 4 => '4'
  | 5 => '5' | 6 => '6' | 7 => '7' | 8 => '8' | _ => '9'

/-- Fuel-driven decimal rendering accumulator (the fuel is an upper bound on
the number itself, so it never runs out). -/
def natToCharsAux : Nat → Nat → List Char → List Char
  | _, 0, acc => acc
  | 0, _ + 1, acc => acc
  | fuel + 1, n + 1, acc =>
    natToCharsAux fuel ((n + 1) / 10) (digitToChar ((n + 1) % 10) :: acc)

/-- Decimal rendering of a natural number (Python `str(n)` for `n ≥ 0`). -/
def natToChars (n : Nat) : List Char :=
  if n = 0 then ['0'] else natToCharsAux n n []

/-- Decimal rendering of an integer (Python `str(n)`). -/
def intToChars (i : Int) : List Char :=
  if i < 0 then '-' :: natToChars (-i).toNat else natToChars i.toNat

/-- Parse value of a decimal digit. -/
def digitVal (c : Char) : Option Nat :=
  if '0' ≤ c ∧ c ≤ '9' then some (c.toNat - 48) else none

/-- Parse a nonempty digit string. -/
def parseNatAux (acc : Nat) : List Char → Option Nat
  | [] => some acc
  | c :: cs =>
    match digitVal c with
    | some d => parseNatAux (acc * 10 + d) cs
    | none => none

/-- Parse a decimal natural number; `none` on the empty string. -/
def parseNatChars : List Char → Option Nat
  | [] => none
  | l => parseNatAux 0 l

/-- Parse a decimal integer with an optional leading minus sign. -/
def parseIntChars : List Char → Option Int
  | '-' :: rest => (parseNatChars rest).map (fun n => -(n : Int))
  | l => (parseNatChars l).map (fun n => (n : Int))

/-! ## Cells and dataframes -/

/-- A dataframe cell: missing value (NaN/None), text, or integer. -/
inductive Cell
  | null
  | str (s : List Char)
  | int (n : Int)
deriving DecidableEq, Repr

/-- Python `str(x)` on a cell: `str(nan) = "nan"`. -/
def cellToChars (c : Cell) : List Char :=
  match c with
  | Cell.null => "nan".data
  | Cell.str s => s
  | Cell.int n => intToChars n

/-- The body of `lambda x: str(x).strip()` used by `convert_object_to_category`
and the per-column strip loops. -/
def convCell (c : Cell) : Cell :=
  Cell.str (strip (cellToChars c))

/-- Model of `pd.to_numeric(·, errors='coerce')` on one cell: unparsable values and
nulls coerce to null. -/
def toNumericCoerce (c : Cell) : Cell :=
  match c with
  | Cell.int n => Cell.int n
  | Cell.str s =>
    match parseIntChars s with
    | some n => Cell.int n
    | none => Cell.null
  | Cell.null => Cell.null

/-- Integer content of a cell, if any (`astype` parses numeral strings and
raises on non-finite/null values). -/
def cellToIntO (c : Cell) : Option Int :=
  match c with
  | Cell.int n => some n
  | Cell.str s => parseIntChars s
  | Cell.null => none

/-- Cast `astype('int64')` on one cell: fails (raises) on null or unparsable text. -/
def cellAsInt64 (c : Cell) : Option Cell :=
  (cellToIntO c).map Cell.int

/-- Two's-complement wrap to 16 bits, numpy `astype('int16')` semantics. -/
def wrap16 (n : Int) : Int :=
  ((n + 32768) % 65536) - 32768

/-- Cast `astype('int16')` on one cell. -/
def cellAsInt16 (c : Cell) : Option Cell :=
  (cellToIntO c).map (fun n => Cell.int (wrap16 n))

/-- Python `x.upper()` on a string cell; other cells are left as-is (callers apply it
only after every cell has been stringified). -/
def upperStr (c : Cell) : Cell :=
  match c with
  | Cell.str s => Cell.str (s.map pyToUpper)
  | other => other

/-- Python `x.upper()` where a non-string raises (`AttributeError`). -/
def upperCellO (c : Cell) : Option Cell :=
  match c with
  | Cell.str s => some (Cell.str (s.map pyToUpper))
  | _ => none

/-- Traversal `mapM` over `Option`, spelled out so its equations are ours to reason on. -/
def mapMO (f : α → Option β) : List α → Option (List β)
  | [] => some []
  | x :: xs =>
    match f x, mapMO f xs with
    | some y, some ys => some (y :: ys)
    | _, _ => none

/-- Pandas `drop_duplicates()` keeping the first occurrence of each row. -/
def dropDupsAux [DecidableEq α] (seen : List α) : List α → List α
  | [] => []
  | x :: xs =>
    if x ∈ seen then dropDupsAux seen xs
    else x :: dropDupsAux (x :: seen) xs

/-- Pandas `drop_duplicates()` on a row list. -/
def dropDups [DecidableEq α] (l : List α) : List α :=
  dropDupsAux [] l

/-- A dataframe: ordered column labels and positional rows. -/
structure DF where
  cols : List String
  rows : List (List Cell)
deriving DecidableEq, Repr

/-- Label-based cell lookup (first matching column; absent label reads as
null, the way `pd.concat` materialises a missing column). -/
def getCell : List String → List Cell → String → Cell
  | [], _, _ => Cell.null
  | _ :: _, [], _ => Cell.null
  | cn :: cns, x :: xs, c => if cn = c then x else getCell cns xs c

/-- Reindex a row onto a new column list (missing columns become null). -/
def reindexRow (newCols cols : List String) (row : List Cell) : List Cell :=
  newCols.map (getCell cols row)

/-- Column-label union in order of first appearance (`pd.concat` column
alignment). -/
def unionCols (l1 l2 : List String) : List String :=
  l1 ++ l2.filter (fun c => decide (c ∉ l1))

/-- Apply `f` to the cells of every column named `target`. -/
def mapColRow (f : Cell → Cell) (target : String) : List String → List Cell → List Cell
  | [], row => row
  | _, [] => []
  | cn :: cns, x :: xs =>
    (if cn = target then f x else x) :: mapColRow f target cns xs

/-- Fallibly apply `f` to the cells of every column named `target`. -/
def castColRow (f : Cell → Option Cell) (target : String) :
    List String → List Cell → Option (List Cell)
  | [], row => some row
  | _, [] => some []
  | cn :: cns, x :: xs =>
    match (if cn = target then f x else some x), castColRow f target cns xs with
    | some y, some ys => some (y :: ys)
    | _, _ => none

/-- Whole-column application `df[target] = df[target].map f` / `astype`: whole-column fallible cast. -/
def castCol (df : DF) (target : String) (f : Cell → Option Cell) : Option DF :=
  (mapMO (castColRow f target df.cols) df.rows).map (fun rs => ⟨df.cols, rs⟩)

/-- Apply `convCell` to the cells of the columns listed in `objs`. -/
def convRow (objs : List String) : List String → List Cell → List Cell
  | [], row => row
  | _, [] => []
  | cn :: cns, x :: xs =>
    (if cn ∈ objs then convCell x else x) :: convRow objs cns xs

/-- Is the cell a string? -/
def cellIsStr (c : Cell) : Bool :=
  match c with
  | Cell.str _ => true
  | _ => false

/-- The object-dtype columns of a dataframe at a point where no nulls remain:
exactly the columns holding at least one string cell (all-integer columns are
int64, not object). -/
def objectCols (df : DF) : List String :=
  df.cols.filter (fun c => df.rows.any (fun r => cellIsStr (getCell df.cols r c)))

/-- Embedding of `convert_object_to_category` (`src/funcs/utils.py`): every object-dtype
column is passed through `lambda x: str(x).strip()` (the `category` dtype tag
itself has no cell-level content). -/
def convert_object_to_category (df : DF) : DF :=
  ⟨df.cols, df.rows.map (convRow (objectCols df) df.cols)⟩

/-! ## CompositeKeyDecoder (`inOutkeys_to_lists`, `src/funcs/utils.py`) -/

/-- Decode one already-bracket-stripped token: `item.split(',')` then
`x[0].strip(), x[1].strip()`; fewer than two parts raises (`IndexError`),
extra parts are silently ignored. -/
def decodeParts (item : List Char) : Option (List Char × List Char) :=
  match splitOnChar ',' item with
  | a :: b :: _ => some (strip a, strip b)
  | _ => none

/-- Decode a raw composite-key token: remove brackets, then `decodeParts`. -/
def inOut_decode (tok : List Char) : Option (List Char × List Char) :=
  decodeParts (removeBrackets tok)

/-- Whole-column decode: the loop body of `inOutkeys_to_lists` over the
(already bracket-stripped) column; one bad row fails the whole loop. -/
def decode_column (col : List (List Char)) : Option (List (List Char) × List (List Char)) :=
  (mapMO decodeParts col).map List.unzip

/-- The bidirectional dataframe as `inOutkeys_to_lists` sees it: the
`inOutkey` column plus the remaining columns, which the function never
touches. -/
structure BidirDF where
  inOutkey : List (List Char)
  rest : List (List Cell)
deriving DecidableEq, Repr

/-- Embedding of `inOutkeys_to_lists` (`src/funcs/utils.py` lines 7-26): first mutates the
caller's `inOutkey` column in place (bracket removal), then splits the mutated
column into the two returned id lists. -/
def inOutkeys_to_lists (df : BidirDF) :
    BidirDF × Option (List (List Char) × List (List Char)) :=
  ({ df with inOutkey := df.inOutkey.map removeBrackets },
   decode_column (df.inOutkey.map removeBrackets))

/-! ## RelationshipNormalizer, Attribute variant
(`DataProcessor.process_attribute_rels`, `src/scripts/preprocess_resnet.py`
lines 108-126) -/

/-- One raw attribute row (`['msrc_id', ':START_ID', 'id2', 'type:TYPE',
':END_ID']`). -/
structure AttrRawRow where
  msrc_id : Cell
  start_id : Cell
  id2 : Cell
  typeTYPE : Cell
  end_id : Cell
deriving DecidableEq, Repr

/-- An attribute row after `drop(columns=['id2'])`. -/
structure AttrRow where
  msrc_id : Cell
  start_id : Cell
  typeTYPE : Cell
  end_id : Cell
deriving DecidableEq, Repr

/-- Predicate for `dropna(how='any')`: keep rows with no missing field. -/
def attrNoNull (r : AttrRow) : Bool :=
  !(r.msrc_id == Cell.null) && !(r.start_id == Cell.null) &&
    !(r.typeTYPE == Cell.null) && !(r.end_id == Cell.null)

/-- The per-column strip loop applied to all four remaining columns. -/
def attrStripRow (r : AttrRow) : AttrRow :=
  ⟨convCell r.msrc_id, convCell r.start_id, convCell r.typeTYPE, convCell r.end_id⟩

/-- Embedding of `process_attribute_rels`: drop `id2`, drop rows with any missing field,
strip-stringify every cell, then `pd.to_numeric(errors='coerce')` followed by
`astype('int64')` on `:START_ID` and on `:END_ID` (the cast raises on any
null, failing the whole batch). -/
def process_attribute_rels (rows : List AttrRawRow) : Option (List AttrRow) :=
  match mapMO (fun r =>
      (cellAsInt64 (toNumericCoerce r.start_id)).map
        (fun v => AttrRow.mk r.msrc_id v r.typeTYPE r.end_id))
      (((rows.map (fun r => AttrRow.mk r.msrc_id r.start_id r.typeTYPE r.end_id)).filter
        attrNoNull).map attrStripRow) with
  | none => none
  | some rows1 =>
    mapMO (fun r =>
      (cellAsInt64 (toNumericCoerce r.end_id)).map
        (fun v => AttrRow.mk r.msrc_id r.start_id r.typeTYPE v))
      rows1

/-! ## Unifier (`DataProcessor.concat_relationship_files`,
`src/scripts/preprocess_resnet.py` lines 128-155) -/

/-- Pandas `pd.concat([d, b, a], ignore_index=True)`: align all rows onto the column
union, missing columns materialising as null. -/
def concatDF (d b a : DF) : DF :=
  let cs := unionCols (unionCols d.cols b.cols) a.cols
  ⟨cs, d.rows.map (reindexRow cs d.cols) ++ b.rows.map (reindexRow cs b.cols) ++
    a.rows.map (reindexRow cs a.cols)⟩

/-- One-cell `df['ref_count:int'].fillna(0)`. -/
def fillZeroCell (c : Cell) : Cell :=
  if c = Cell.null then Cell.int 0 else c

/-- One-cell `df.fillna('None')`. -/
def naToNoneCell (c : Cell) : Cell :=
  if c = Cell.null then Cell.str ("None".data) else c

/-- One-cell `df.replace('nan', 'None')` (exact full-value match). -/
def nanToNoneCell (c : Cell) : Cell :=
  if c = Cell.str ("nan".data) then Cell.str ("None".data) else c

/-- One-cell `df.replace('None', '_')` (exact full-value match). -/
def noneToSentCell (c : Cell) : Cell :=
  if c = Cell.str ("None".data) then Cell.str ("_".data) else c

/-- The missing-value passes of the unifier on one row, in source order:
fill `ref_count:int` nulls with 0, fill remaining nulls with `'None'`,
replace `'nan'` by `'None'`, replace `'None'` by `'_'`. -/
def fillStageRow (cols : List String) (row : List Cell) : List Cell :=
  ((mapColRow fillZeroCell "ref_count:int" cols row).map naToNoneCell).map
    (fun c => noneToSentCell (nanToNoneCell c))

/-- Concatenation followed by the missing-value passes (steps 1-3 of the
unifier; the category-to-object dtype loop has no cell-level content). -/
def fillStage (d b a : DF) : DF :=
  let df := concatDF d b a
  ⟨df.cols, df.rows.map (fillStageRow df.cols)⟩

/-- Projection `df_concat[cols]` onto a column list. -/
def selectCols (df : DF) (cs : List String) : DF :=
  ⟨cs, df.rows.map (reindexRow cs df.cols)⟩

/-- Embedding of `concat_relationship_files` on the three processed tables: concatenate,
normalise missing values, cast `ref_count:int` to int16 and `msrc_id` to
int64, drop duplicate rows, strip-stringify object columns, upper-case
`type:TYPE`, and project onto the directional (first) table's column order. -/
def concat_relationship_files (d b a : DF) : Option DF :=
  match castCol (fillStage d b a) "ref_count:int" cellAsInt16 with
  | none => none
  | some df5 =>
    match castCol df5 "msrc_id" cellAsInt64 with
    | none => none
    | some df6 =>
      match castCol (convert_object_to_category ⟨df6.cols, dropDups df6.rows⟩)
          "type:TYPE" upperCellO with
      | none => none
      | some df8 => some (selectCols df8 d.cols)

/-- Embedding of `create_header_file` (`src/scripts/preprocess_resnet.py` lines 47-57):
contents of the header artifact, `to_csv(sep='|', index=False)` of an empty
frame with the given columns. -/
def create_header_file (cols : List String) : List Char :=
  joinChar '|' (cols.map String.data) ++ ['\n']

/-- A cell as written by `to_csv` / `csv.writer` (null prints empty). -/
def cellOut (c : Cell) : List Char :=
  match c with
  | Cell.null => []
  | Cell.str s => s
  | Cell.int n => intToChars n

/-- Pipe-delimited rendering of data rows, one line per row. -/
def renderCsv (rows : List (List Cell)) : List Char :=
  (rows.map (fun r => joinChar '|' (r.map cellOut))).foldr
    (fun line acc => line ++ '\n' :: acc) []

/-- Rendering `df.to_csv(sep='|', index=False, header=True)`: header line then rows. -/
def dfToCsv (df : DF) : List Char :=
  joinChar '|' (df.cols.map String.data) ++ '\n' :: renderCsv df.rows

/-! ## NodeNormalizer (`DataProcessor.process_node_file`,
`src/scripts/preprocess_resnet.py` lines 157-173) -/

/-- One node row (`[':ID', 'name', ':LABEL']`). -/
structure NodeRow where
  id : Cell
  name : Cell
  label : Cell
deriving DecidableEq, Repr

/-- One-row `df.applymap(lambda x: str(x).strip())`. -/
def nodeStripRow (r : NodeRow) : NodeRow :=
  ⟨convCell r.id, convCell r.name, convCell r.label⟩

/-- One-cell `df['name'].replace([';;', ';'], ':', regex=True)`: first all
`';;'`, then all remaining `';'`, become `':'`. -/
def replaceSemisCell (c : Cell) : Cell :=
  match c with
  | Cell.str s => Cell.str (replaceAll ';' [] [':'] (replaceAll ';' [';'] [':'] s))
  | other => other

/-- Embedding of `process_node_file`: strip-stringify every cell, upper-case `:LABEL`,
cast `:ID` to int64 (raising on unparsable ids), remap semicolons in `name`.
No row is added, removed, or special-cased. -/
def process_node_file (rows : List NodeRow) : Option (List NodeRow) :=
  match mapMO (fun r => (cellAsInt64 r.id).map (fun v => NodeRow.mk v r.name r.label))
      ((rows.map nodeStripRow).map
        (fun r => NodeRow.mk r.id r.name (upperStr r.label))) with
  | none => none
  | some rows3 =>
    some (rows3.map (fun r => NodeRow.mk r.id (replaceSemisCell r.name) r.label))

/-! ## Extraction stage file handling (`CreateDatasets.execute_sql_query`,
`src/scripts/resnet_datasets.py` lines 56-84) -/

/-- Outcome of the database interaction: the connection may fail before the
output file is opened, the query may fail after it is opened, or the fetch
succeeds. -/
inductive QueryOutcome
  | connError (msg : List Char)
  | dbError (msg : List Char)
  | ok (rows : List (List Cell))
deriving DecidableEq, Repr

/-- Embedding of `execute_sql_query` as a transformer of the output path's file state
(`none` = file absent). `open(output_path, 'w')` truncates the file in place
before `cur.execute` runs; there is no temporary file or rename. Returns the
resulting file state and whether the stage succeeded. -/
def execute_sql_query (prev : Option (List Char)) (q : QueryOutcome) :
    Option (List Char) × Bool :=
  match q with
  | QueryOutcome.connError _ => (prev, false)
  | QueryOutcome.dbError _ => (some [], false)
  | QueryOutcome.ok rows => (some (renderCsv rows), true)

/-! ## Predicates used by the statements -/

/-- Decimal digit test. -/
def isDigitChar (c : Char) : Bool :=
  if '0' ≤ c ∧ c ≤ '9' then true else false

/-- A normalized cell as produced by the per-variant processors: any integer
or null, and only whitespace-trimmed text. -/
def normCellB (c : Cell) : Bool :=
  match c with
  | Cell.str s => strip s == s
  | _ => true

/-- A normalized intermediate table (every cell normalized). -/
def normDF (df : DF) : Bool :=
  df.rows.all (fun r => r.all normCellB)

/-- A cell free of every missing-value representation: non-null, and text is
trimmed and differs from both `'nan'` and `'None'`. -/
def goodCellB (c : Cell) : Bool :=
  match c with
  | Cell.null => false
  | Cell.int _ => true
  | Cell.str s => (strip s == s) && !(s == "nan".data) && !(s == "None".data)

/-- All rows have the given width. -/
def rowsLen (n : Nat) (rows : List (List Cell)) : Prop :=
  ∀ row ∈ rows, row.length = n

/-- All cells of all rows are `goodCellB`. -/
def rowsGood (rows : List (List Cell)) : Prop :=
  ∀ row ∈ rows, ∀ c ∈ row, goodCellB c = true

/-! ## Concrete example tables used by witnesses and counterexamples -/

/-- Example directional table: two columns, one row. -/
def dEx : DF := ⟨["msrc_id", "phase"], [[Cell.int 1, Cell.str ("p1".data)]]⟩

/-- Example bidirectional table: lacks the `phase` column. -/
def bEx : DF := ⟨["msrc_id"], [[Cell.int 2]]⟩

/-- Example attribute table: empty. -/
def aEx : DF := ⟨[], []⟩

/-- The unified output of the example tables. -/
def tEx : DF :=
  ⟨["msrc_id", "phase"],
    [[Cell.int 1, Cell.str ("p1".data)], [Cell.int 2, Cell.str ("_".data)]]⟩

/-- First line of a rendered file (up to the first newline). -/
def firstLine (l : List Char) : List Char :=
  l.takeWhile (fun c => !(c == '\n'))

/-- Does a cell's text contain the character? -/
def cellHasChar (ch : Char) (c : Cell) : Bool :=
  match c with
  | Cell.str s => decide (ch ∈ s)
  | _ => false

/-- Example bidirectional dataframe for the composite-key decoder. -/
def bidirEx : BidirDF :=
  ⟨["[10, 20]".data, "[30, 40]".data], [[Cell.int 5], [Cell.int 6]]⟩

/-- An attribute row with numeric ids. -/
def attrGoodRow : AttrRawRow :=
  ⟨Cell.int 3, Cell.int 60, Cell.int 3, Cell.str ("Expression".data), Cell.int 70⟩

/-- An attribute row whose `start_id` is not numeric. -/
def attrBadRow : AttrRawRow :=
  ⟨Cell.int 4, Cell.str ("abc".data), Cell.int 4, Cell.str ("Expr".data), Cell.int 71⟩

/-- An attribute row whose `end_id` is not numeric. -/
def attrBadEndRow : AttrRawRow :=
  ⟨Cell.int 5, Cell.int 61, Cell.int 5, Cell.str ("Expr2".data), Cell.str ("xyz".data)⟩

/-- A node table of two rows; the second row's `name` cell embeds two
newline-separated pipe-delimited sub-records (the pathological shape). -/
def nodeEx : List NodeRow :=
  [⟨Cell.int 1, Cell.str ("alpha".data), Cell.str ("Protein".data)⟩,
   ⟨Cell.int 999, Cell.str ("7|x|gene\n8|y|gene".data), Cell.str ("Protein".data)⟩]

/-- The normalized output of `nodeEx`. -/
def nodeExOut : List NodeRow :=
  [⟨Cell.int 1, Cell.str ("alpha".data), Cell.str ("PROTEIN".data)⟩,
   ⟨Cell.int 999, Cell.str ("7|x|gene\n8|y|gene".data), Cell.str ("PROTEIN".data)⟩]

/-- A node row whose name holds semicolons. -/
def nodeSemiEx : List NodeRow :=
  [⟨Cell.int 5, Cell.str ("a;;b;c".data), Cell.str ("gene".data)⟩]

/-- The normalized output of `nodeSemiEx`. -/
def nodeSemiExOut : List NodeRow :=
  [⟨Cell.int 5, Cell.str ("a:b:c".data), Cell.str ("GENE".data)⟩]

/-- A one-column dataframe holding a null and a padded string. -/
def dfC9 : DF := ⟨["name"], [[Cell.null], [Cell.str (" x ".data)]]⟩

/-! ## Lemmas: stripping -/

theorem stripRight_idem (l : List Char) : stripRight (stripRight l) = stripRight l := by
  induction l with
  | nil => rfl
  | cons c cs ih =>
    cases h : stripRight cs with
    | nil =>
      by_cases hc : isSpaceChar c
      · simp [stripRight, h, hc]
      · simp [stripRight, h, hc]
    | cons x xs =>
      rw [h] at ih
      have h2 : stripRight (c :: cs) = c :: x :: xs := by
        simp only [stripRight, h]
      rw [h2]
      show (match stripRight (x :: xs) with
        | [] => if isSpaceChar c = true then [] else [c]
        | r => c :: r) = c :: x :: xs
      rw [ih]

theorem stripRight_head (c : Char) (cs : List Char) :
    stripRight (c :: cs) = [] ∨ ∃ t, stripRight (c :: cs) = c :: t := by
  simp only [stripRight]
  cases stripRight cs with
  | nil =>
    by_cases hc : isSpaceChar c
    · simp [hc]
    · simp [hc]
  | cons x xs => simp

theorem dropWhile_head_false {p : Char → Bool} {l : List Char} {c : Char} {cs : List Char}
    (h : l.dropWhile p = c :: cs) : p c = false := by
  induction l with
  | nil => simp at h
  | cons a as ih =>
    by_cases ha : p a
    · simp [List.dropWhile, ha] at h
      exact ih h
    · simp [List.dropWhile, ha] at h
      rw [← h.1]
      exact Bool.not_eq_true _ |>.mp ha

theorem strip_stripRight_of_head {m : List Char}
    (hm : ∀ c cs, m = c :: cs → isSpaceChar c = false) :
    strip (stripRight m) = stripRight m := by
  cases m with
  | nil => rfl
  | cons c cs =>
    have hc := hm c cs rfl
    show stripRight ((stripRight (c :: cs)).dropWhile isSpaceChar) = stripRight (c :: cs)
    rcases stripRight_head c cs with h0 | ⟨t, ht⟩
    · rw [h0]
      rfl
    · rw [ht, List.dropWhile_cons_of_neg (by simp [hc]), ← ht, stripRight_idem]

theorem strip_idem (l : List Char) : strip (strip l) = strip l := by
  show strip (stripRight (l.dropWhile isSpaceChar)) = stripRight (l.dropWhile isSpaceChar)
  exact strip_stripRight_of_head (fun c cs h => dropWhile_head_false h)

theorem dropWhile_map {f : Char → Char} {p : Char → Bool}
    (hf : ∀ c, p (f c) = p c) (l : List Char) :
    (l.map f).dropWhile p = (l.dropWhile p).map f := by
  induction l with
  | nil => rfl
  | cons c cs ih =>
    by_cases hc : p c
    · simp [List.dropWhile, hf, hc, ih]
    · simp [List.dropWhile, hf, hc]

theorem stripRight_map {f : Char → Char}
    (hf : ∀ c, isSpaceChar (f c) = isSpaceChar c) (l : List Char) :
    stripRight (l.map f) = (stripRight l).map f := by
  induction l with
  | nil => rfl
  | cons c cs ih =>
    simp only [List.map_cons, stripRight, ih]
    cases stripRight cs with
    | nil =>
      by_cases hc : isSpaceChar c
      · simp [hf, hc]
      · simp [hf, hc]
    | cons x xs => simp

theorem strip_map {f : Char → Char}
    (hf : ∀ c, isSpaceChar (f c) = isSpaceChar c) (l : List Char) :
    strip (l.map f) = (strip l).map f := by
  unfold strip
  rw [dropWhile_map hf, stripRight_map hf]

theorem strip_of_nonspace {l : List Char}
    (h : ∀ c ∈ l, isSpaceChar c = false) : strip l = l := by
  unfold strip
  have hd : l.dropWhile isSpaceChar = l := by
    cases l with
    | nil => rfl
    | cons c cs => exact List.dropWhile_cons_of_neg (by simp [h c (by simp)])
  rw [hd]
  clear hd
  induction l with
  | nil => rfl
  | cons c cs ih =>
    have hcs : ∀ x ∈ cs, isSpaceChar x = false := fun x hx => h x (by simp [hx])
    have ih2 := ih hcs
    simp only [stripRight, ih2]
    cases cs with
    | nil => simp [h c (by simp)]
    | cons x xs => simp

/-! ## Lemmas: splitting and joining -/

theorem splitOnChar_ne_nil (sep : Char) (l : List Char) : splitOnChar sep l ≠ [] := by
  induction l with
  | nil => simp [splitOnChar]
  | cons c cs ih =>
    simp only [splitOnChar]
    by_cases hc : c = sep
    · simp [hc]
    · simp only [hc, if_false]
      cases splitOnChar sep cs with
      | nil => simp
      | cons h t => simp

theorem splitOnChar_no_sep {sep : Char} {l : List Char} (h : sep ∉ l) :
    splitOnChar sep l = [l] := by
  induction l with
  | nil => rfl
  | cons c cs ih =>
    have hc : c ≠ sep := fun he => h (by simp [he])
    have hcs : sep ∉ cs := fun he => h (by simp [he])
    simp only [splitOnChar, hc, if_false, ih hcs]

theorem splitOnChar_append {sep : Char} {p : List Char} (t : List Char) (h : sep ∉ p) :
    splitOnChar sep (p ++ sep :: t) = p :: splitOnChar sep t := by
  induction p with
  | nil => simp [splitOnChar]
  | cons c cs ih =>
    have hc : c ≠ sep := fun he => h (by simp [he])
    have hcs : sep ∉ cs := fun he => h (by simp [he])
    simp only [List.cons_append, splitOnChar, hc, if_false, List.append_eq, ih hcs]

theorem splitOnChar_joinChar {sep : Char} {parts : List (List Char)}
    (hne : parts ≠ []) (h : ∀ p ∈ parts, sep ∉ p) :
    splitOnChar sep (joinChar sep parts) = parts := by
  induction parts with
  | nil => exact absurd rfl hne
  | cons p rest ih =>
    cases rest with
    | nil => exact splitOnChar_no_sep (h p (by simp))
    | cons q rest2 =>
      simp only [joinChar]
      rw [splitOnChar_append _ (h p (by simp))]
      rw [ih (by simp) (fun x hx => h x (by simp [hx]))]

/-! ## Lemmas: character classes and decimal rendering -/

theorem digitToChar_isDigit (d : Nat) : isDigitChar (digitToChar d) = true := by
  unfold digitToChar
  split <;> decide

theorem natToCharsAux_chars (fuel : Nat) :
    ∀ (n : Nat) (acc : List Char), (∀ c ∈ acc, isDigitChar c = true) →
    ∀ c ∈ natToCharsAux fuel n acc, isDigitChar c = true := by
  induction fuel with
  | zero =>
    intro n acc hacc
    cases n with
    | zero => rw [natToCharsAux]; exact hacc
    | succ m => rw [natToCharsAux]; exact hacc
  | succ f ih =>
    intro n acc hacc
    cases n with
    | zero => rw [natToCharsAux]; exact hacc
    | succ m =>
      rw [natToCharsAux]
      refine ih _ _ ?_
      intro c hc
      rcases List.mem_cons.mp hc with h | h
      · rw [h]
        exact digitToChar_isDigit _
      · exact hacc c h

theorem natToChars_chars (n : Nat) : ∀ c ∈ natToChars n, isDigitChar c = true := by
  unfold natToChars
  by_cases h : n = 0
  · simp [h]
    decide
  · simp only [h, if_false]
    exact natToCharsAux_chars n n [] (by simp)

theorem intToChars_chars (i : Int) :
    ∀ c ∈ intToChars i, isDigitChar c = true ∨ c = '-' := by
  unfold intToChars
  by_cases h : i < 0
  · simp only [h, if_true]
    intro c hc
    rcases List.mem_cons.mp hc with h2 | h2
    · right
      exact h2
    · left
      exact natToChars_chars _ c h2
  · simp only [h, if_false]
    intro c hc
    left
    exact natToChars_chars _ c hc

theorem digit_not_space {c : Char} (h : isDigitChar c = true) : isSpaceChar c = false := by
  by_contra hs
  have hs2 : isSpaceChar c = true := Bool.not_eq_false _ |>.mp hs
  have hc : ((((c = ' ' ∨ c = '\t') ∨ c = '\n') ∨ c = '\r') ∨ c = '\x0b') ∨ c = '\x0c' := by
    simpa [isSpaceChar] using hs2
  rcases hc with ((((h1 | h1) | h1) | h1) | h1) | h1 <;>
    · rw [h1] at h
      exact absurd h (by decide)

theorem intToChars_not_space (i : Int) : ∀ c ∈ intToChars i, isSpaceChar c = false := by
  intro c hc
  rcases intToChars_chars i c hc with h | h
  · exact digit_not_space h
  · rw [h]
    decide

theorem strip_intToChars (i : Int) : strip (intToChars i) = intToChars i :=
  strip_of_nonspace (intToChars_not_space i)

theorem intToChars_ne_nan (i : Int) : intToChars i ≠ "nan".data := by
  intro h
  have hn : 'n' ∈ intToChars i := by
    rw [h]
    decide
  rcases intToChars_chars i 'n' hn with h2 | h2
  · simp [isDigitChar] at h2
  · simp at h2

theorem intToChars_ne_none (i : Int) : intToChars i ≠ "None".data := by
  intro h
  have hn : 'N' ∈ intToChars i := by
    rw [h]
    decide
  rcases intToChars_chars i 'N' hn with h2 | h2
  · simp [isDigitChar] at h2
  · simp at h2

theorem pyToUpper_space (c : Char) : isSpaceChar (pyToUpper c) = isSpaceChar c := by
  unfold pyToUpper
  split <;> rfl

theorem pyToUpper_ne_n (c : Char) : pyToUpper c ≠ 'n' := by
  unfold pyToUpper
  split <;> simp_all

theorem pyToUpper_ne_o (c : Char) : pyToUpper c ≠ 'o' := by
  unfold pyToUpper
  split <;> simp_all

/-! ## Lemmas: option-valued traversal -/

theorem mapMO_length {f : α → Option β} {l : List α} {l' : List β}
    (h : mapMO f l = some l') : l'.length = l.length := by
  induction l generalizing l' with
  | nil =>
    simp [mapMO] at h
    simp [← h]
  | cons x xs ih =>
    rw [mapMO] at h
    cases hx : f x with
    | none => rw [hx] at h; exact absurd h (by simp)
    | some y =>
      cases hxs : mapMO f xs with
      | none => rw [hx, hxs] at h; exact absurd h (by simp)
      | some ys =>
        rw [hx, hxs] at h
        simp only [Option.some.injEq] at h
        rw [← h]
        simp [ih hxs]

theorem mapMO_none {f : α → Option β} {l : List α} {x : α}
    (hx : x ∈ l) (hf : f x = none) : mapMO f l = none := by
  induction l with
  | nil => simp at hx
  | cons a as ih =>
    rw [mapMO]
    rcases List.mem_cons.mp hx with h | h
    · rw [← h, hf]
    · rw [ih h]
      cases f a <;> rfl

theorem mapMO_mem {f : α → Option β} {l : List α} {l' : List β}
    (h : mapMO f l = some l') : ∀ y ∈ l', ∃ x ∈ l, f x = some y := by
  induction l generalizing l' with
  | nil =>
    simp [mapMO] at h
    simp [h]
  | cons a as ih =>
    rw [mapMO] at h
    cases hx : f a with
    | none => rw [hx] at h; exact absurd h (by simp)
    | some y =>
      cases hxs : mapMO f as with
      | none => rw [hx, hxs] at h; exact absurd h (by simp)
      | some ys =>
        rw [hx, hxs] at h
        simp only [Option.some.injEq] at h
        intro z hz
        rw [← h] at hz
        rcases List.mem_cons.mp hz with h2 | h2
        · exact ⟨a, by simp, by rw [hx, h2]⟩
        · rcases ih hxs z h2 with ⟨x, hx1, hx2⟩
          exact ⟨x, by simp [hx1], hx2⟩

theorem mapMO_mem_forward {f : α → Option β} {l : List α} {l' : List β}
    (h : mapMO f l = some l') : ∀ x ∈ l, ∃ y ∈ l', f x = some y := by
  induction l generalizing l' with
  | nil => simp
  | cons a as ih =>
    rw [mapMO] at h
    cases hx : f a with
    | none => rw [hx] at h; exact absurd h (by simp)
    | some y =>
      cases hxs : mapMO f as with
      | none => rw [hx, hxs] at h; exact absurd h (by simp)
      | some ys =>
        rw [hx, hxs] at h
        simp only [Option.some.injEq] at h
        intro x hxmem
        rcases List.mem_cons.mp hxmem with h2 | h2
        · exact ⟨y, by simp [← h], by rw [h2, hx]⟩
        · rcases ih hxs x h2 with ⟨z, hz1, hz2⟩
          exact ⟨z, by simp [← h, hz1], hz2⟩

theorem mapMO_getD {f : α → Option β} {l : List α} {l' : List β}
    (h : mapMO f l = some l') (i : Nat) (hi : i < l.length) (d : α) (d' : β) :
    f (l.getD i d) = some (l'.getD i d') := by
  induction l generalizing l' i with
  | nil => simp at hi
  | cons a as ih =>
    rw [mapMO] at h
    cases hx : f a with
    | none => rw [hx] at h; exact absurd h (by simp)
    | some y =>
      cases hxs : mapMO f as with
      | none => rw [hx, hxs] at h; exact absurd h (by simp)
      | some ys =>
        rw [hx, hxs] at h
        simp only [Option.some.injEq] at h
        rw [← h]
        cases i with
        | zero => simpa using hx
        | succ j =>
          simp only [List.getD_cons_succ]
          exact ih hxs j (by simpa using hi)

/-! ## Lemmas: duplicate dropping -/

theorem dropDupsAux_length [DecidableEq α] (seen : List α) (l : List α) :
    (dropDupsAux seen l).length ≤ l.length := by
  induction l generalizing seen with
  | nil => simp [dropDupsAux]
  | cons x xs ih =>
    rw [dropDupsAux]
    by_cases hx : x ∈ seen
    · simp only [hx, if_true]
      exact Nat.le_succ_of_le (ih seen)
    · simp only [hx, if_false, List.length_cons]
      exact Nat.succ_le_succ (ih (x :: seen))

theorem dropDups_length [DecidableEq α] (l : List α) : (dropDups l).length ≤ l.length :=
  dropDupsAux_length [] l

theorem dropDupsAux_subset [DecidableEq α] (seen : List α) (l : List α) :
    ∀ x ∈ dropDupsAux seen l, x ∈ l := by
  induction l generalizing seen with
  | nil => simp [dropDupsAux]
  | cons a as ih =>
    rw [dropDupsAux]
    by_cases ha : a ∈ seen
    · simp only [ha, if_true]
      intro x hx
      exact List.mem_cons_of_mem a (ih seen x hx)
    · simp only [ha, if_false]
      intro x hx
      rcases List.mem_cons.mp hx with h | h
      · simp [h]
      · exact List.mem_cons_of_mem a (ih (a :: seen) x h)

theorem dropDups_subset [DecidableEq α] (l : List α) : ∀ x ∈ dropDups l, x ∈ l :=
  dropDupsAux_subset [] l

/-! ## Lemmas: label-based access -/

theorem getCell_not_mem {cols : List String} {c : String} (row : List Cell)
    (h : c ∉ cols) : getCell cols row c = Cell.null := by
  induction cols generalizing row with
  | nil => cases row <;> rfl
  | cons cn cns ih =>
    cases row with
    | nil => rfl
    | cons x xs =>
      have hcn : cn ≠ c := fun he => h (by simp [he])
      rw [getCell]
      simp only [hcn, if_false]
      exact ih xs (fun he => h (by simp [he]))

theorem getCell_mem {cols : List String} {c : String} {row : List Cell}
    (hc : c ∈ cols) (hl : cols.length ≤ row.length) :
    getCell cols row c ∈ row := by
  induction cols generalizing row with
  | nil => simp at hc
  | cons cn cns ih =>
    cases row with
    | nil => simp at hl
    | cons x xs =>
      rw [getCell]
      by_cases he : cn = c
      · simp [he]
      · simp only [he, if_false]
        have hc2 : c ∈ cns := by
          rcases List.mem_cons.mp hc with h | h
          · exact absurd h.symm he
          · exact h
        exact List.mem_cons_of_mem x (ih hc2 (by simpa using hl))

theorem getCell_mem_or_null (cols : List String) (row : List Cell) (c : String) :
    getCell cols row c = Cell.null ∨ getCell cols row c ∈ row := by
  induction cols generalizing row with
  | nil => cases row <;> simp [getCell]
  | cons cn cns ih =>
    cases row with
    | nil => simp [getCell]
    | cons x xs =>
      rw [getCell]
      by_cases he : cn = c
      · simp [he]
      · simp only [he, if_false]
        rcases ih xs with h | h
        · simp [h]
        · right
          exact List.mem_cons_of_mem x h

theorem getCell_reindex {newCols cols : List String} {c : String} (row : List Cell)
    (hc : c ∈ newCols) :
    getCell newCols (reindexRow newCols cols row) c = getCell cols row c := by
  induction newCols with
  | nil => simp at hc
  | cons n ns ih =>
    rw [reindexRow, List.map_cons, getCell]
    by_cases he : n = c
    · simp [he]
    · simp only [he, if_false]
      have hc2 : c ∈ ns := by
        rcases List.mem_cons.mp hc with h | h
        · exact absurd h.symm he
        · exact h
      exact ih hc2

/-! ## Lemmas: row operations -/

theorem mapColRow_length (f : Cell → Cell) (target : String) (cols : List String)
    (row : List Cell) : (mapColRow f target cols row).length = row.length := by
  induction cols generalizing row with
  | nil => cases row <;> rfl
  | cons cn cns ih =>
    cases row with
    | nil => rfl
    | cons x xs => simp [mapColRow, ih]

theorem mapColRow_mem {f : Cell → Cell} {target : String} {cols : List String}
    {row : List Cell} : ∀ x ∈ mapColRow f target cols row,
    x ∈ row ∨ ∃ y ∈ row, x = f y := by
  induction cols generalizing row with
  | nil =>
    intro x hx
    cases row with
    | nil => simp [mapColRow] at hx
    | cons a as => exact Or.inl hx
  | cons cn cns ih =>
    cases row with
    | nil => simp [mapColRow]
    | cons a as =>
      intro x hx
      rw [mapColRow] at hx
      rcases List.mem_cons.mp hx with h | h
      · by_cases he : cn = target
        · simp only [he, if_true] at h
          exact Or.inr ⟨a, by simp, h⟩
        · simp only [he, if_false] at h
          exact Or.inl (by simp [h])
      · rcases ih x h with h2 | ⟨y, hy1, hy2⟩
        · exact Or.inl (List.mem_cons_of_mem a h2)
        · exact Or.inr ⟨y, List.mem_cons_of_mem a hy1, hy2⟩

theorem getCell_mapColRow {f : Cell → Cell} {target : String} {cols : List String}
    {row : List Cell} {c : String} (hc : c ∈ cols) (hl : cols.length ≤ row.length) :
    getCell cols (mapColRow f target cols row) c =
      if c = target then f (getCell cols row c) else getCell cols row c := by
  induction cols generalizing row with
  | nil => simp at hc
  | cons cn cns ih =>
    cases row with
    | nil => simp at hl
    | cons a as =>
      rw [mapColRow, getCell, getCell]
      by_cases he : cn = c
      · simp [he]
      · simp only [he, if_false]
        have hc2 : c ∈ cns := by
          rcases List.mem_cons.mp hc with h | h
          · exact absurd h.symm he
          · exact h
        exact ih hc2 (by simpa using hl)

theorem getCell_map {f : Cell → Cell} {cols : List String} {row : List Cell} {c : String}
    (hc : c ∈ cols) (hl : cols.length ≤ row.length) :
    getCell cols (row.map f) c = f (getCell cols row c) := by
  induction cols generalizing row with
  | nil => simp at hc
  | cons cn cns ih =>
    cases row with
    | nil => simp at hl
    | cons a as =>
      rw [List.map_cons, getCell, getCell]
      by_cases he : cn = c
      · simp [he]
      · simp only [he, if_false]
        have hc2 : c ∈ cns := by
          rcases List.mem_cons.mp hc with h | h
          · exact absurd h.symm he
          · exact h
        exact ih hc2 (by simpa using hl)

theorem convRow_length (objs cols : List String) (row : List Cell) :
    (convRow objs cols row).length = row.length := by
  induction cols generalizing row with
  | nil => cases row <;> rfl
  | cons cn cns ih =>
    cases row with
    | nil => rfl
    | cons x xs => simp [convRow, ih]

theorem convRow_mem {objs cols : List String} {row : List Cell} :
    ∀ x ∈ convRow objs cols row, x ∈ row ∨ ∃ y ∈ row, x = convCell y := by
  induction cols generalizing row with
  | nil =>
    intro x hx
    cases row with
    | nil => simp [convRow] at hx
    | cons a as => exact Or.inl hx
  | cons cn cns ih =>
    cases row with
    | nil => simp [convRow]
    | cons a as =>
      intro x hx
      rw [convRow] at hx
      rcases List.mem_cons.mp hx with h | h
      · by_cases he : cn ∈ objs
        · simp only [he, if_true] at h
          exact Or.inr ⟨a, by simp, h⟩
        · simp only [he, if_false] at h
          exact Or.inl (by simp [h])
      · rcases ih x h with h2 | ⟨y, hy1, hy2⟩
        · exact Or.inl (List.mem_cons_of_mem a h2)
        · exact Or.inr ⟨y, List.mem_cons_of_mem a hy1, hy2⟩

theorem getCell_convRow {objs cols : List String} {row : List Cell} {c : String}
    (hc : c ∈ cols) (hl : cols.length ≤ row.length) :
    getCell cols (convRow objs cols row) c =
      if c ∈ objs then convCell (getCell cols row c) else getCell cols row c := by
  induction cols generalizing row with
  | nil => simp at hc
  | cons cn cns ih =>
    cases row with
    | nil => simp at hl
    | cons a as =>
      rw [convRow, getCell, getCell]
      by_cases he : cn = c
      · simp [he]
      · simp only [he, if_false]
        have hc2 : c ∈ cns := by
          rcases List.mem_cons.mp hc with h | h
          · exact absurd h.symm he
          · exact h
        exact ih hc2 (by simpa using hl)

theorem castColRow_length {f : Cell → Option Cell} {target : String}
    {cols : List String} {row row' : List Cell}
    (h : castColRow f target cols row = some row') : row'.length = row.length := by
  induction cols generalizing row row' with
  | nil =>
    cases row with
    | nil =>
      have heq : castColRow f target [] ([] : List Cell) = some [] := rfl
      rw [heq] at h
      simp only [Option.some.injEq] at h
      rw [← h]
    | cons a as =>
      have heq : castColRow f target [] (a :: as) = some (a :: as) := rfl
      rw [heq] at h
      simp only [Option.some.injEq] at h
      rw [← h]
  | cons cn cns ih =>
    cases row with
    | nil =>
      have heq : castColRow f target (cn :: cns) ([] : List Cell) = some [] := rfl
      rw [heq] at h
      simp only [Option.some.injEq] at h
      rw [← h]
    | cons a as =>
      rw [castColRow] at h
      cases hx : (if cn = target then f a else some a) with
      | none => rw [hx] at h; exact absurd h (by simp)
      | some y =>
        cases hxs : castColRow f target cns as with
        | none => rw [hx, hxs] at h; exact absurd h (by simp)
        | some ys =>
          rw [hx, hxs] at h
          simp only [Option.some.injEq] at h
          rw [← h]
          simp [ih hxs]

theorem castColRow_mem {f : Cell → Option Cell} {target : String}
    {cols : List String} {row row' : List Cell}
    (h : castColRow f target cols row = some row') :
    ∀ y ∈ row', y ∈ row ∨ ∃ x ∈ row, f x = some y := by
  induction cols generalizing row row' with
  | nil =>
    cases row with
    | nil =>
      have heq : castColRow f target [] ([] : List Cell) = some [] := rfl
      rw [heq] at h
      simp only [Option.some.injEq] at h
      rw [← h]
      simp
    | cons a as =>
      have heq : castColRow f target [] (a :: as) = some (a :: as) := rfl
      rw [heq] at h
      simp only [Option.some.injEq] at h
      rw [← h]
      intro y hy
      exact Or.inl hy
  | cons cn cns ih =>
    cases row with
    | nil =>
      have heq : castColRow f target (cn :: cns) ([] : List Cell) = some [] := rfl
      rw [heq] at h
      simp only [Option.some.injEq] at h
      rw [← h]
      simp
    | cons a as =>
      rw [castColRow] at h
      cases hx : (if cn = target then f a else some a) with
      | none => rw [hx] at h; exact absurd h (by simp)
      | some y =>
        cases hxs : castColRow f target cns as with
        | none => rw [hx, hxs] at h; exact absurd h (by simp)
        | some ys =>
          rw [hx, hxs] at h
          simp only [Option.some.injEq] at h
          intro z hz
          rw [← h] at hz
          rcases List.mem_cons.mp hz with h2 | h2
          · by_cases he : cn = target
            · simp only [he, if_true] at hx
              exact Or.inr ⟨a, by simp, by rw [hx, h2]⟩
            · simp only [he, if_false, Option.some.injEq] at hx
              exact Or.inl (by rw [h2, ← hx]; exact List.mem_cons_self a as)
          · rcases ih hxs z h2 with h3 | ⟨x, hx1, hx2⟩
            · exact Or.inl (List.mem_cons_of_mem a h3)
            · exact Or.inr ⟨x, List.mem_cons_of_mem a hx1, hx2⟩

theorem reindexRow_length (newCols cols : List String) (row : List Cell) :
    (reindexRow newCols cols row).length = newCols.length := by
  simp [reindexRow]

/-! ## Lemmas: missing-value normalization at cell level -/

theorem normCellB_null : normCellB Cell.null = true := rfl

theorem normDF_spec {df : DF} (h : normDF df = true) :
    ∀ row ∈ df.rows, ∀ c ∈ row, normCellB c = true := by
  intro row hrow c hc
  unfold normDF at h
  rw [List.all_eq_true] at h
  have h2 := h row hrow
  rw [List.all_eq_true] at h2
  exact h2 c hc

theorem fillZero_norm {w : Cell} (h : normCellB w = true) :
    normCellB (fillZeroCell w) = true := by
  unfold fillZeroCell
  by_cases hw : w = Cell.null
  · simp [hw, normCellB]
  · simp [hw, h]

theorem fill_pipeline_good {w : Cell} (h : normCellB w = true) :
    goodCellB (noneToSentCell (nanToNoneCell (naToNoneCell w))) = true := by
  cases w with
  | null => decide
  | int n => simp [naToNoneCell, nanToNoneCell, noneToSentCell, goodCellB]
  | str s =>
    have hs : strip s = s := by simpa [normCellB] using h
    rw [show naToNoneCell (Cell.str s) = Cell.str s from by simp [naToNoneCell]]
    by_cases h1 : s = "nan".data
    · simp [h1, nanToNoneCell, noneToSentCell]
      decide
    · rw [show nanToNoneCell (Cell.str s) = Cell.str s from by simp [nanToNoneCell, h1]]
      by_cases h2 : s = "None".data
      · simp [h2, noneToSentCell]
        decide
      · rw [show noneToSentCell (Cell.str s) = Cell.str s from by simp [noneToSentCell, h2]]
        simp [goodCellB, hs, h1, h2]

theorem convCell_good {w : Cell} (h : goodCellB w = true) :
    goodCellB (convCell w) = true := by
  cases w with
  | null => simp [goodCellB] at h
  | int n =>
    unfold convCell cellToChars
    rw [strip_intToChars]
    simp only [goodCellB, strip_intToChars, beq_self_eq_true, Bool.true_and,
      Bool.and_eq_true, Bool.not_eq_true', beq_eq_false_iff_ne, ne_eq]
    exact ⟨by simpa using intToChars_ne_nan n, by simpa using intToChars_ne_none n⟩
  | str s =>
    have hs : strip s = s := by
      have := h
      unfold goodCellB at this
      exact beq_iff_eq.mp (Bool.and_eq_true_iff.mp
        (Bool.and_eq_true_iff.mp this).1).1
    unfold convCell cellToChars
    rw [hs]
    exact h

theorem map_upper_good {s : List Char} (h : goodCellB (Cell.str s) = true) :
    goodCellB (Cell.str (s.map pyToUpper)) = true := by
  unfold goodCellB at h ⊢
  rcases Bool.and_eq_true_iff.mp h with ⟨h12, _⟩
  rcases Bool.and_eq_true_iff.mp h12 with ⟨h1, _⟩
  have hs : strip s = s := beq_iff_eq.mp h1
  have hstrip : strip (s.map pyToUpper) = s.map pyToUpper := by
    rw [strip_map pyToUpper_space, hs]
  have hnan : ¬(s.map pyToUpper = "nan".data) := by
    intro he
    have hn : 'n' ∈ s.map pyToUpper := by
      rw [he]
      decide
    rcases List.mem_map.mp hn with ⟨x, _, hx2⟩
    exact pyToUpper_ne_n x hx2
  have hnone : ¬(s.map pyToUpper = "None".data) := by
    intro he
    have hn : 'o' ∈ s.map pyToUpper := by
      rw [he]
      decide
    rcases List.mem_map.mp hn with ⟨x, _, hx2⟩
    exact pyToUpper_ne_o x hx2
  simp [hstrip, hnan, hnone]

theorem upperCellO_good {x y : Cell} (h : upperCellO x = some y)
    (hx : goodCellB x = true) : goodCellB y = true := by
  cases x with
  | str s =>
    unfold upperCellO at h
    simp only [Option.some.injEq] at h
    rw [← h]
    exact map_upper_good hx
  | null => exact absurd h (by simp [upperCellO])
  | int n => exact absurd h (by simp [upperCellO])

theorem cellAsInt16_good {x y : Cell} (h : cellAsInt16 x = some y) :
    goodCellB y = true := by
  unfold cellAsInt16 at h
  cases hz : cellToIntO x with
  | none => rw [hz] at h; exact absurd h (by simp)
  | some n =>
    rw [hz] at h
    simp only [Option.map_some', Option.some.injEq] at h
    rw [← h]
    rfl

theorem cellAsInt64_good {x y : Cell} (h : cellAsInt64 x = some y) :
    goodCellB y = true := by
  unfold cellAsInt64 at h
  cases hz : cellToIntO x with
  | none => rw [hz] at h; exact absurd h (by simp)
  | some n =>
    rw [hz] at h
    simp only [Option.map_some', Option.some.injEq] at h
    rw [← h]
    rfl

theorem goodCellB_not_missing {c : Cell} (h : goodCellB c = true) :
    c ≠ Cell.null ∧ c ≠ Cell.str ("nan".data) ∧ c ≠ Cell.str ("None".data) := by
  cases c with
  | null => simp [goodCellB] at h
  | int n => exact ⟨by simp, by simp, by simp⟩
  | str s =>
    unfold goodCellB at h
    rcases Bool.and_eq_true_iff.mp h with ⟨h12, h3⟩
    rcases Bool.and_eq_true_iff.mp h12 with ⟨_, h2⟩
    refine ⟨by simp, ?_, ?_⟩
    · simp only [ne_eq, Cell.str.injEq]
      simpa using h2
    · simp only [ne_eq, Cell.str.injEq]
      simpa using h3

/-! ## Lemmas: unifier stages -/

theorem mem_unionCols_left {l1 l2 : List String} {c : String} (h : c ∈ l1) :
    c ∈ unionCols l1 l2 :=
  List.mem_append_left _ h

theorem concatDF_cols (d b a : DF) :
    (concatDF d b a).cols = unionCols (unionCols d.cols b.cols) a.cols := rfl

theorem concatDF_rows_norm {d b a : DF}
    (hd : normDF d = true) (hb : normDF b = true) (ha : normDF a = true) :
    ∀ row ∈ (concatDF d b a).rows, ∀ c ∈ row, normCellB c = true := by
  intro row hrow c hc
  have hmem : ∀ (src : DF), normDF src = true →
      row ∈ src.rows.map (reindexRow (concatDF d b a).cols src.cols) →
      normCellB c = true := by
    intro src hsrc hrow2
    rcases List.mem_map.mp hrow2 with ⟨orig, horig, heq⟩
    rw [← heq] at hc
    rcases List.mem_map.mp hc with ⟨cname, _, hcell⟩
    rcases getCell_mem_or_null src.cols orig cname with h0 | h0
    · rw [← hcell, h0]
      rfl
    · rw [← hcell]
      exact normDF_spec hsrc orig horig _ h0
  rcases List.mem_append.mp hrow with h1 | h1
  · rcases List.mem_append.mp h1 with h2 | h2
    · exact hmem d hd h2
    · exact hmem b hb h2
  · exact hmem a ha h1

theorem concatDF_rows_len (d b a : DF) :
    rowsLen (concatDF d b a).cols.length (concatDF d b a).rows := by
  intro row hrow
  have hmem : ∀ (src : DF),
      row ∈ src.rows.map (reindexRow (concatDF d b a).cols src.cols) →
      row.length = (concatDF d b a).cols.length := by
    intro src hrow2
    rcases List.mem_map.mp hrow2 with ⟨orig, _, heq⟩
    rw [← heq]
    exact reindexRow_length _ _ _
  rcases List.mem_append.mp hrow with h1 | h1
  · rcases List.mem_append.mp h1 with h2 | h2
    · exact hmem d h2
    · exact hmem b h2
  · exact hmem a h1

theorem concatDF_count (d b a : DF) :
    (concatDF d b a).rows.length =
      d.rows.length + b.rows.length + a.rows.length := by
  simp [concatDF]
  omega

theorem fillStageRow_length (cols : List String) (row : List Cell) :
    (fillStageRow cols row).length = row.length := by
  unfold fillStageRow
  simp [mapColRow_length]

theorem fillStageRow_good {cols : List String} {row : List Cell}
    (h : ∀ c ∈ row, normCellB c = true) :
    ∀ z ∈ fillStageRow cols row, goodCellB z = true := by
  intro z hz
  unfold fillStageRow at hz
  rcases List.mem_map.mp hz with ⟨y, hy, hyz⟩
  rcases List.mem_map.mp hy with ⟨w, hw, hwy⟩
  rcases mapColRow_mem w hw with h1 | ⟨v, hv, hveq⟩
  · rw [← hyz, ← hwy]
    exact fill_pipeline_good (h w h1)
  · rw [← hyz, ← hwy, hveq]
    exact fill_pipeline_good (fillZero_norm (h v hv))

theorem fillStage_cols (d b a : DF) : (fillStage d b a).cols = (concatDF d b a).cols := rfl

theorem fillStage_good {d b a : DF}
    (hd : normDF d = true) (hb : normDF b = true) (ha : normDF a = true) :
    rowsGood (fillStage d b a).rows := by
  intro row hrow
  rcases List.mem_map.mp hrow with ⟨orig, horig, heq⟩
  rw [← heq]
  exact fillStageRow_good (concatDF_rows_norm hd hb ha orig horig)

theorem fillStage_len (d b a : DF) :
    rowsLen (concatDF d b a).cols.length (fillStage d b a).rows := by
  intro row hrow
  rcases List.mem_map.mp hrow with ⟨orig, horig, heq⟩
  rw [← heq, fillStageRow_length]
  exact concatDF_rows_len d b a orig horig

theorem fillStage_count (d b a : DF) :
    (fillStage d b a).rows.length = (concatDF d b a).rows.length := by
  unfold fillStage
  simp

theorem castCol_inv {df df' : DF} {target : String} {f : Cell → Option Cell}
    (h : castCol df target f = some df') :
    df'.cols = df.cols ∧
      ∃ rs, mapMO (castColRow f target df.cols) df.rows = some rs ∧ df'.rows = rs := by
  unfold castCol at h
  cases hm : mapMO (castColRow f target df.cols) df.rows with
  | none => rw [hm] at h; exact absurd h (by simp)
  | some rs =>
    rw [hm] at h
    simp only [Option.map_some', Option.some.injEq] at h
    rw [← h]
    exact ⟨rfl, rs, rfl, rfl⟩

theorem castCol_good {df df' : DF} {target : String} {f : Cell → Option Cell}
    (h : castCol df target f = some df')
    (hf : ∀ x y, f x = some y → goodCellB x = true → goodCellB y = true)
    (hg : rowsGood df.rows) : rowsGood df'.rows := by
  rcases castCol_inv h with ⟨_, rs, hm, hrows⟩
  rw [hrows]
  intro row hrow c hc
  rcases mapMO_mem hm row hrow with ⟨orig, horig, hcast⟩
  rcases castColRow_mem hcast c hc with h1 | ⟨x, hx, hfx⟩
  · exact hg orig horig c h1
  · exact hf x c hfx (hg orig horig x hx)

theorem castCol_len {df df' : DF} {target : String} {f : Cell → Option Cell} {n : Nat}
    (h : castCol df target f = some df')
    (hl : rowsLen n df.rows) : rowsLen n df'.rows := by
  rcases castCol_inv h with ⟨_, rs, hm, hrows⟩
  rw [hrows]
  intro row hrow
  rcases mapMO_mem hm row hrow with ⟨orig, horig, hcast⟩
  rw [castColRow_length hcast]
  exact hl orig horig

theorem castCol_count {df df' : DF} {target : String} {f : Cell → Option Cell}
    (h : castCol df target f = some df') : df'.rows.length = df.rows.length := by
  rcases castCol_inv h with ⟨_, rs, hm, hrows⟩
  rw [hrows]
  exact mapMO_length hm

theorem convert_cols (df : DF) : (convert_object_to_category df).cols = df.cols := rfl

theorem convert_good {df : DF} (hg : rowsGood df.rows) :
    rowsGood (convert_object_to_category df).rows := by
  intro row hrow c hc
  rcases List.mem_map.mp hrow with ⟨orig, horig, heq⟩
  rw [← heq] at hc
  rcases convRow_mem c hc with h1 | ⟨y, hy, hyeq⟩
  · exact hg orig horig c h1
  · rw [hyeq]
    exact convCell_good (hg orig horig y hy)

theorem convert_len {df : DF} {n : Nat} (hl : rowsLen n df.rows) :
    rowsLen n (convert_object_to_category df).rows := by
  intro row hrow
  rcases List.mem_map.mp hrow with ⟨orig, horig, heq⟩
  rw [← heq, convRow_length]
  exact hl orig horig

theorem convert_count (df : DF) :
    (convert_object_to_category df).rows.length = df.rows.length := by
  unfold convert_object_to_category
  simp

theorem dropDups_good {rows : List (List Cell)} (hg : rowsGood rows) :
    rowsGood (dropDups rows) :=
  fun row hrow => hg row (dropDups_subset rows row hrow)

theorem dropDups_len {rows : List (List Cell)} {n : Nat} (hl : rowsLen n rows) :
    rowsLen n (dropDups rows) :=
  fun row hrow => hl row (dropDups_subset rows row hrow)

/-- Invert the match structure of `concat_relationship_files`. -/
theorem concat_relationship_files_inv {d b a t : DF}
    (h : concat_relationship_files d b a = some t) :
    ∃ df5 df6 df8,
      castCol (fillStage d b a) "ref_count:int" cellAsInt16 = some df5 ∧
      castCol df5 "msrc_id" cellAsInt64 = some df6 ∧
      castCol (convert_object_to_category ⟨df6.cols, dropDups df6.rows⟩)
        "type:TYPE" upperCellO = some df8 ∧
      t = selectCols df8 d.cols := by
  rw [concat_relationship_files] at h
  split at h
  · exact absurd h (by simp)
  · rename_i df5 h5
    split at h
    · exact absurd h (by simp)
    · rename_i df6 h6
      split at h
      · exact absurd h (by simp)
      · rename_i df8 h8
        simp only [Option.some.injEq] at h
        exact ⟨df5, df6, df8, h5, h6, h8, h.symm⟩

/-! ## Claim C3 and Claim C8 -/

/-- Claim C3: after `concat_relationship_files` on normalized inputs, the
unified table contains no representation of "missing" other than the single
canonical sentinel: no null cell, no `'nan'` text, no `'None'` text survive
the three passes (fill nulls with `'None'`, replace `'nan'` by `'None'`,
replace `'None'` by `'_'`, applied in exactly that order). -/
theorem unify_single_sentinel (d b a t : DF)
    (hd : normDF d = true) (hb : normDF b = true) (ha : normDF a = true)
    (h : concat_relationship_files d b a = some t) :
    ∀ row ∈ t.rows, ∀ c ∈ row,
      c ≠ Cell.null ∧ c ≠ Cell.str ("nan".data) ∧ c ≠ Cell.str ("None".data) := by
  rcases concat_relationship_files_inv h with ⟨df5, df6, df8, h5, h6, h8, ht⟩
  have g4 := fillStage_good hd hb ha
  have l4 := fillStage_len d b a
  have g5 := castCol_good h5 (fun x y hxy _ => cellAsInt16_good hxy) g4
  have l5 := castCol_len h5 l4
  have g6 := castCol_good h6 (fun x y hxy _ => cellAsInt64_good hxy) g5
  have l6 := castCol_len h6 l5
  have g7 : rowsGood (convert_object_to_category ⟨df6.cols, dropDups df6.rows⟩).rows :=
    convert_good (dropDups_good g6)
  have l7 : rowsLen (concatDF d b a).cols.length
      (convert_object_to_category ⟨df6.cols, dropDups df6.rows⟩).rows :=
    convert_len (dropDups_len l6)
  have g8 := castCol_good h8 (fun x y hxy hx => upperCellO_good hxy hx) g7
  have l8 := castCol_len h8 l7
  have c5 : df5.cols = (concatDF d b a).cols := (castCol_inv h5).1
  have c6 : df6.cols = df5.cols := (castCol_inv h6).1
  have c8 : df8.cols = df6.cols := (castCol_inv h8).1
  rw [ht]
  intro row hrow c hc
  rcases List.mem_map.mp hrow with ⟨row8, hrow8, heq⟩
  rw [← heq] at hc
  rcases List.mem_map.mp hc with ⟨cname, hcname, hcell⟩
  have hmemcols : cname ∈ df8.cols := by
    rw [c8, c6, c5]
    exact mem_unionCols_left (mem_unionCols_left hcname)
  have hlen : df8.cols.length ≤ row8.length := by
    rw [l8 row8 hrow8, c8, c6, c5]
  have hmem := getCell_mem hmemcols hlen
  rw [← hcell]
  exact goodCellB_not_missing (g8 row8 hrow8 _ hmem)

/-- Witness for Claim C3: the example tables are normalized, unification
succeeds on them, and the invariant holds at the sentinel cell the fill pass
produced in the concrete output row. -/
theorem unify_single_sentinel_witness :
    Cell.str ("_".data) ≠ Cell.null ∧
    Cell.str ("_".data) ≠ Cell.str ("nan".data) ∧
    Cell.str ("_".data) ≠ Cell.str ("None".data) :=
  unify_single_sentinel dEx bEx aEx tEx (by decide) (by decide) (by decide) (by decide)
    [Cell.int 2, Cell.str ("_".data)] (by decide) (Cell.str ("_".data)) (by decide)

/-- Claim C8: the unified table never has more rows than the three inputs
combined — concatenation contributes exactly the input rows and
`drop_duplicates` only removes rows. -/
theorem unify_count_bound (d b a t : DF)
    (h : concat_relationship_files d b a = some t) :
    t.rows.length ≤ d.rows.length + b.rows.length + a.rows.length := by
  rcases concat_relationship_files_inv h with ⟨df5, df6, df8, h5, h6, h8, ht⟩
  have n8 : df8.rows.length = (dropDups df6.rows).length := by
    rw [castCol_count h8, convert_count]
  have hd6 : (dropDups df6.rows).length ≤ df6.rows.length := dropDups_length _
  have n6 := castCol_count h6
  have n5 := castCol_count h5
  have nf := fillStage_count d b a
  have nc := concatDF_count d b a
  have nt : t.rows.length = df8.rows.length := by
    rw [ht]
    simp [selectCols]
  omega

/-- Witness for Claim C8: the bound holds on the concrete example, where the
output has 2 rows and the inputs have 1 + 1 + 0. -/
theorem unify_count_bound_witness :
    tEx.rows.length ≤ dEx.rows.length + bEx.rows.length + aEx.rows.length :=
  unify_count_bound dEx bEx aEx tEx (by decide)

/-! ## Lemmas: decoder and positional access -/

theorem getD_map_lt {f : α → β} {l : List α} {i : Nat} (hi : i < l.length)
    (d : α) (d' : β) : (l.map f).getD i d' = f (l.getD i d) := by
  induction l generalizing i with
  | nil => simp at hi
  | cons x xs ih =>
    cases i with
    | zero => simp
    | succ j =>
      simp only [List.map_cons, List.getD_cons_succ]
      exact ih (by simpa using hi)

theorem decodeParts_some {item : List Char} {v : List Char × List Char}
    (h : decodeParts item = some v) :
    ∃ p q rest2, splitOnChar ',' item = p :: q :: rest2 ∧ v = (strip p, strip q) := by
  unfold decodeParts at h
  cases hs : splitOnChar ',' item with
  | nil => rw [hs] at h; exact absurd h (by simp)
  | cons p rest =>
    cases rest with
    | nil => rw [hs] at h; exact absurd h (by simp)
    | cons q rest2 =>
      rw [hs] at h
      simp only [Option.some.injEq] at h
      exact ⟨p, q, rest2, rfl, h.symm⟩

theorem not_mem_replaceAllAux_single {p : Char} {sub : List Char} (hp : p ∉ sub)
    (fuel : Nat) : ∀ l : List Char, l.length ≤ fuel →
    p ∉ replaceAllAux p [] sub fuel l := by
  induction fuel with
  | zero =>
    intro l hf
    cases l with
    | nil => simp [replaceAllAux]
    | cons c cs => simp at hf
  | succ f ih =>
    intro l hf
    cases l with
    | nil => simp [replaceAllAux]
    | cons c cs =>
      have hcs : cs.length ≤ f := by
        simp only [List.length_cons] at hf
        omega
      rw [replaceAllAux]
      by_cases hc : p = c
      · have hpre : ([p].isPrefixOf (c :: cs)) = true := by
          simp [List.isPrefixOf, hc]
        rw [hpre, if_pos rfl]
        simp only [List.length_nil, List.drop_zero]
        intro hmem
        rcases List.mem_append.mp hmem with h1 | h1
        · exact hp h1
        · exact ih _ hcs h1
      · have hpre : ([p].isPrefixOf (c :: cs)) = false := by
          simp [List.isPrefixOf, hc]
        rw [hpre, if_neg (by simp)]
        intro hmem
        rcases List.mem_cons.mp hmem with h1 | h1
        · exact hc h1
        · exact ih _ hcs h1

theorem not_mem_replaceAll_single {p : Char} {sub : List Char} (hp : p ∉ sub)
    (l : List Char) : p ∉ replaceAll p [] sub l :=
  not_mem_replaceAllAux_single hp l.length l (Nat.le_refl _)

theorem mem_joinChar {sep : Char} {parts : List (List Char)} {c : Char}
    (h : c ∈ joinChar sep parts) : c = sep ∨ ∃ p ∈ parts, c ∈ p := by
  induction parts with
  | nil => simp [joinChar] at h
  | cons p rest ih =>
    cases rest with
    | nil =>
      right
      exact ⟨p, by simp, by simpa [joinChar] using h⟩
    | cons q rest2 =>
      rw [joinChar] at h
      rcases List.mem_append.mp h with h1 | h1
      · right
        exact ⟨p, by simp, h1⟩
      · rcases List.mem_cons.mp h1 with h2 | h2
        · exact Or.inl h2
        · rcases ih h2 with h3 | ⟨x, hx1, hx2⟩
          · exact Or.inl h3
          · exact Or.inr ⟨x, by simp [hx1], hx2⟩

theorem firstLine_append_newline {l : List Char} (r : List Char)
    (h : ∀ c ∈ l, c ≠ '\n') : firstLine (l ++ '\n' :: r) = l := by
  induction l with
  | nil => simp [firstLine, List.takeWhile]
  | cons c cs ih =>
    have hc : c ≠ '\n' := h c (by simp)
    have hcs : ∀ x ∈ cs, x ≠ '\n' := fun x hx => h x (by simp [hx])
    have hbeq : (c == '\n') = false := by simpa using hc
    unfold firstLine at ih ⊢
    simp [List.takeWhile_cons, hbeq, ih hcs]

/-! ## Claim C2 and Claim C10 -/

/-- Counterexample for Claim C2: `decode("[1, 2, 3]")` does not fail — there
is no `MalformedKeyError` anywhere in the code; the loop takes `x[0]` and
`x[1]` and silently ignores the third part. -/
theorem inOut_decode_three_parts_succeeds :
    inOut_decode ("[1, 2, 3]".data) = some ("1".data, "2".data) := by decide

/-- Claim C2 (amended): the decode removes all brackets, splits on comma and
returns the first two parts whitespace-stripped; the two documented positive
examples hold, but a token with three parts succeeds with the extra part
ignored; only a token with no comma at all fails (an index error, not a
`MalformedKeyError`), and one such row fails the whole column decode. -/
theorem inOut_decode_behavior :
    inOut_decode ("[123, 456]".data) = some ("123".data, "456".data) ∧
    inOut_decode ("[  7 ,8]".data) = some ("7".data, "8".data) ∧
    inOut_decode ("[1, 2, 3]".data) = some ("1".data, "2".data) ∧
    (∀ tok p, splitOnChar ',' (removeBrackets tok) = [p] → inOut_decode tok = none) ∧
    (∀ col tok, tok ∈ col → decodeParts tok = none → decode_column col = none) := by
  refine ⟨by decide, by decide, by decide, ?_, ?_⟩
  · intro tok p h
    unfold inOut_decode decodeParts
    rw [h]
  · intro col tok htok hnone
    unfold decode_column
    rw [mapMO_none htok hnone]
    rfl

/-- Witness for Claim C2: a token with no comma fails, and a column holding
it fails as a whole. -/
theorem inOut_decode_behavior_witness :
    inOut_decode ("[12]".data) = none ∧
    decode_column [("12".data)] = none :=
  ⟨inOut_decode_behavior.2.2.2.1 ("[12]".data) ("12".data) (by decide),
   inOut_decode_behavior.2.2.2.2 [("12".data)] ("12".data) (by decide) (by decide)⟩

/-- Claim C10: `inOutkeys_to_lists` mutates its argument — the `inOutkey`
column has every bracket removed, all other columns are untouched — and on
success the two returned lists are, row for row, the stripped first and
second comma-separated parts of the mutated column. -/
theorem inOutkeys_to_lists_frame (df : BidirDF) (l1 l2 : List (List Char))
    (h : (inOutkeys_to_lists df).2 = some (l1, l2)) :
    (inOutkeys_to_lists df).1.inOutkey = df.inOutkey.map removeBrackets ∧
    (inOutkeys_to_lists df).1.rest = df.rest ∧
    l1.length = df.inOutkey.length ∧ l2.length = df.inOutkey.length ∧
    ∀ i, i < df.inOutkey.length →
      ∃ p q rest2,
        splitOnChar ',' ((inOutkeys_to_lists df).1.inOutkey.getD i []) =
          p :: q :: rest2 ∧
        l1.getD i [] = strip p ∧ l2.getD i [] = strip q := by
  have hcol : (inOutkeys_to_lists df).1.inOutkey = df.inOutkey.map removeBrackets := rfl
  have hlen0 : (df.inOutkey.map removeBrackets).length = df.inOutkey.length := by simp
  unfold inOutkeys_to_lists decode_column at h
  cases hm : mapMO decodeParts (df.inOutkey.map removeBrackets) with
  | none =>
    rw [hm] at h
    exact absurd h (by simp)
  | some pl =>
    rw [hm] at h
    simp only [Option.map_some', Option.some.injEq, List.unzip_eq_map] at h
    have h1 : l1 = pl.map Prod.fst := by
      have := congrArg Prod.fst h
      simpa using this.symm
    have h2 : l2 = pl.map Prod.snd := by
      have := congrArg Prod.snd h
      simpa using this.symm
    have hpl : pl.length = df.inOutkey.length := by
      rw [mapMO_length hm, hlen0]
    refine ⟨rfl, rfl, by simp [h1, hpl], by simp [h2, hpl], ?_⟩
    intro i hi
    have hidx := mapMO_getD hm i (by rw [hlen0]; exact hi) [] (strip [], strip [])
    rcases decodeParts_some hidx with ⟨p, q, rest2, hsplit, hval⟩
    refine ⟨p, q, rest2, ?_, ?_, ?_⟩
    · rw [hcol]
      exact hsplit
    · rw [h1, getD_map_lt (by rw [hpl]; exact hi) (strip [], strip []), hval]
    · rw [h2, getD_map_lt (by rw [hpl]; exact hi) (strip [], strip []), hval]

/-- Witness for Claim C10 at a concrete two-row dataframe. -/
theorem inOutkeys_to_lists_frame_witness :
    (inOutkeys_to_lists bidirEx).1.inOutkey = bidirEx.inOutkey.map removeBrackets ∧
    (inOutkeys_to_lists bidirEx).1.rest = bidirEx.rest ∧
    (["10".data, "30".data]).length = bidirEx.inOutkey.length :=
  ⟨(inOutkeys_to_lists_frame bidirEx ["10".data, "30".data] ["20".data, "40".data]
      (by decide)).1,
   (inOutkeys_to_lists_frame bidirEx ["10".data, "30".data] ["20".data, "40".data]
      (by decide)).2.1,
   (inOutkeys_to_lists_frame bidirEx ["10".data, "30".data] ["20".data, "40".data]
      (by decide)).2.2.1⟩

/-! ## Claim C4 -/

/-- Counterexample for Claim C4: a single non-numeric `start_id` fails the
whole batch — `pd.to_numeric(errors='coerce')` coerces it to null, but the
following `astype('int64')` raises on the null instead of dropping the row.
The batch without the bad row succeeds. -/
theorem process_attribute_rels_counterexample :
    process_attribute_rels [attrGoodRow] ≠ none ∧
    process_attribute_rels [attrGoodRow, attrBadRow] = none := by
  constructor
  · decide
  · decide

/-- Claim C4 (amended): a `start_id` or `end_id` that still fails to parse
after the strip pass is coerced to null by `to_numeric`, and then the
`astype('int64')` cast fails the entire batch — no row-level drop happens;
rows are only dropped earlier, by `dropna`, when a field is null. -/
theorem process_attribute_rels_fails_on_unparsable
    (rows : List AttrRawRow) (r : AttrRawRow) (hr : r ∈ rows)
    (hkeep : attrNoNull (AttrRow.mk r.msrc_id r.start_id r.typeTYPE r.end_id) = true)
    (hbad : toNumericCoerce (convCell r.start_id) = Cell.null ∨
      toNumericCoerce (convCell r.end_id) = Cell.null) :
    process_attribute_rels rows = none := by
  unfold process_attribute_rels
  have hmem1 : AttrRow.mk r.msrc_id r.start_id r.typeTYPE r.end_id ∈
      rows.map (fun r => AttrRow.mk r.msrc_id r.start_id r.typeTYPE r.end_id) :=
    List.mem_map.mpr ⟨r, hr, rfl⟩
  have hmem2 : AttrRow.mk r.msrc_id r.start_id r.typeTYPE r.end_id ∈
      (rows.map (fun r => AttrRow.mk r.msrc_id r.start_id r.typeTYPE r.end_id)).filter
        attrNoNull :=
    List.mem_filter.mpr ⟨hmem1, hkeep⟩
  have hmem3 : attrStripRow (AttrRow.mk r.msrc_id r.start_id r.typeTYPE r.end_id) ∈
      ((rows.map (fun r => AttrRow.mk r.msrc_id r.start_id r.typeTYPE r.end_id)).filter
        attrNoNull).map attrStripRow :=
    List.mem_map.mpr ⟨_, hmem2, rfl⟩
  rcases hbad with hbadS | hbadE
  · have hnone : (cellAsInt64 (toNumericCoerce
        (attrStripRow (AttrRow.mk r.msrc_id r.start_id r.typeTYPE r.end_id)).start_id)).map
          (fun v => { attrStripRow (AttrRow.mk r.msrc_id r.start_id r.typeTYPE r.end_id)
            with start_id := v }) = none := by
      show (cellAsInt64 (toNumericCoerce (convCell r.start_id))).map _ = none
      rw [hbadS]
      rfl
    rw [mapMO_none hmem3 hnone]
  · cases hm : mapMO (fun r =>
        (cellAsInt64 (toNumericCoerce r.start_id)).map
          (fun v => AttrRow.mk r.msrc_id v r.typeTYPE r.end_id))
        (((rows.map (fun r => AttrRow.mk r.msrc_id r.start_id r.typeTYPE r.end_id)).filter
          attrNoNull).map attrStripRow) with
    | none => rfl
    | some rows1 =>
      show mapMO (fun r =>
        (cellAsInt64 (toNumericCoerce r.end_id)).map
          (fun v => AttrRow.mk r.msrc_id r.start_id r.typeTYPE v)) rows1 = none
      rcases mapMO_mem_forward hm _ hmem3 with ⟨y, hy, hfy⟩
      cases hv : cellAsInt64 (toNumericCoerce
          (attrStripRow (AttrRow.mk r.msrc_id r.start_id r.typeTYPE r.end_id)).start_id) with
      | none =>
        rw [hv] at hfy
        exact absurd hfy (by simp)
      | some v =>
        rw [hv] at hfy
        simp only [Option.map_some', Option.some.injEq] at hfy
        have hgy : (cellAsInt64 (toNumericCoerce y.end_id)).map
            (fun w => AttrRow.mk y.msrc_id y.start_id y.typeTYPE w) = none := by
          rw [← hfy]
          show (cellAsInt64 (toNumericCoerce (convCell r.end_id))).map _ = none
          rw [hbadE]
          rfl
        rw [mapMO_none hy hgy]

/-- Witness for Claim C4: a batch with one non-numeric `start_id` fails as a
whole, and so does a batch with one non-numeric `end_id`. -/
theorem process_attribute_rels_fails_witness :
    process_attribute_rels [attrGoodRow, attrBadRow] = none ∧
    process_attribute_rels [attrGoodRow, attrBadEndRow] = none :=
  ⟨process_attribute_rels_fails_on_unparsable [attrGoodRow, attrBadRow] attrBadRow
      (by decide) (by decide) (Or.inl (by decide)),
   process_attribute_rels_fails_on_unparsable [attrGoodRow, attrBadEndRow] attrBadEndRow
      (by decide) (by decide) (Or.inr (by decide))⟩

/-! ## Claim C1 and Claim C6 -/

/-- Counterexample for Claim C1: on a 2-row table whose second row is the
pathological row (its name embeds k = 2 sub-records), `process_node_file`
outputs 2 rows — not N-1+k = 3 — and the pathological id 999 is still
present: the code contains no detection, removal, or expansion logic. -/
theorem process_node_file_counterexample :
    (process_node_file nodeEx).map
      (fun out => (out.length, out.any (fun r => r.id == Cell.int 999))) =
      some (2, true) := by decide

/-- Claim C1 (amended): `process_node_file` is purely row-wise (strip,
upper-case label, cast id, remap semicolons in name): whenever it succeeds,
the output has exactly as many rows as the input — no pathological row is
removed and no embedded sub-record is expanded. -/
theorem process_node_file_row_count (rows out : List NodeRow)
    (h : process_node_file rows = some out) : out.length = rows.length := by
  unfold process_node_file at h
  cases hm : mapMO (fun r => (cellAsInt64 r.id).map (fun v => NodeRow.mk v r.name r.label))
      ((rows.map nodeStripRow).map
        (fun r => NodeRow.mk r.id r.name (upperStr r.label))) with
  | none =>
    rw [hm] at h
    exact absurd h (by simp)
  | some rows3 =>
    rw [hm] at h
    simp only [Option.some.injEq] at h
    rw [← h]
    simp [mapMO_length hm]

/-- Witness for Claim C1: the concrete table keeps its 2 rows. -/
theorem process_node_file_row_count_witness : nodeExOut.length = nodeEx.length :=
  process_node_file_row_count nodeEx nodeExOut (by decide)

/-- Counterexample for Claim C6: the output file's record delimiter is the
pipe, but the remapping in `process_node_file` replaces semicolons, not
pipes: a name containing `'|'` reaches the written node table unchanged. -/
theorem process_node_file_pipe_counterexample :
    (process_node_file nodeEx).map
      (fun out => out.any (fun r => cellHasChar '|' r.name)) = some true := by decide

/-- Claim C6 (amended): the name remapping eliminates semicolons — every
`';;'` and then every `';'` becomes `':'` — so no semicolon survives in any
output name; the pipe delimiter itself is not remapped. -/
theorem process_node_file_no_semicolon (rows out : List NodeRow)
    (h : process_node_file rows = some out) :
    ∀ r ∈ out, cellHasChar ';' r.name = false := by
  unfold process_node_file at h
  cases hm : mapMO (fun r => (cellAsInt64 r.id).map (fun v => NodeRow.mk v r.name r.label))
      ((rows.map nodeStripRow).map
        (fun r => NodeRow.mk r.id r.name (upperStr r.label))) with
  | none =>
    rw [hm] at h
    exact absurd h (by simp)
  | some rows3 =>
    rw [hm] at h
    simp only [Option.some.injEq] at h
    rw [← h]
    intro r hr
    rcases List.mem_map.mp hr with ⟨r3, hr3, heq⟩
    rcases mapMO_mem hm r3 hr3 with ⟨r2, hr2, hcast⟩
    rcases List.mem_map.mp hr2 with ⟨r1, hr1, heq2⟩
    rcases List.mem_map.mp hr1 with ⟨r0, _, heq1⟩
    have hname : ∃ s, r3.name = Cell.str s := by
      cases hv : cellAsInt64 r2.id with
      | none => rw [hv] at hcast; exact absurd hcast (by simp)
      | some v =>
        rw [hv] at hcast
        simp only [Option.map_some', Option.some.injEq] at hcast
        rw [← hcast]
        rw [← heq2, ← heq1]
        exact ⟨strip (cellToChars r0.name), rfl⟩
    rcases hname with ⟨s, hs⟩
    rw [← heq]
    show cellHasChar ';' (replaceSemisCell r3.name) = false
    rw [hs]
    unfold replaceSemisCell cellHasChar
    simp only [decide_eq_false_iff_not]
    exact not_mem_replaceAll_single (by decide) _

/-- Witness for Claim C6: the remapped concrete name `a;;b;c ↦ a:b:c` holds
no semicolon. -/
theorem process_node_file_no_semicolon_witness :
    cellHasChar ';' (Cell.str ("a:b:c".data)) = false :=
  process_node_file_no_semicolon nodeSemiEx nodeSemiExOut (by decide)
    ⟨Cell.int 5, Cell.str ("a:b:c".data), Cell.str ("GENE".data)⟩ (by decide)

/-! ## Claim C5 -/

/-- Counterexample for Claim C5: a database error during query execution
does not leave the previous contents of the output path unchanged — the
stage opened the file with mode `'w'` before executing, so the old contents
are already gone and an empty file remains. There is no temporary file. -/
theorem execute_sql_query_counterexample :
    execute_sql_query (some ("old".data)) (QueryOutcome.dbError ("boom".data)) =
      (some [], false) ∧
    (execute_sql_query (some ("old".data)) (QueryOutcome.dbError ("boom".data))).1 ≠
      some ("old".data) := by
  exact ⟨rfl, by decide⟩

/-- Claim C5 (amended): `execute_sql_query` writes directly to the output
path: a failure before the file is opened (connection error) leaves it
unchanged, but a failure after (database error during execution) leaves the
file truncated to empty, destroying any nonempty previous contents; success
writes the rendered rows in place. No temporary-file-and-rename discipline
exists. -/
theorem execute_sql_query_file_state (prev msg : List Char) (rows : List (List Cell))
    (hne : prev ≠ []) :
    execute_sql_query (some prev) (QueryOutcome.connError msg) = (some prev, false) ∧
    execute_sql_query (some prev) (QueryOutcome.dbError msg) = (some [], false) ∧
    (execute_sql_query (some prev) (QueryOutcome.dbError msg)).1 ≠ some prev ∧
    execute_sql_query (some prev) (QueryOutcome.ok rows) = (some (renderCsv rows), true) := by
  refine ⟨rfl, rfl, ?_, rfl⟩
  show some ([] : List Char) ≠ some prev
  simp only [ne_eq, Option.some.injEq]
  exact fun he => hne he.symm

/-- Witness for Claim C5 at concrete file contents. -/
theorem execute_sql_query_file_state_witness :
    execute_sql_query (some ("old".data)) (QueryOutcome.connError ("no creds".data)) =
      (some ("old".data), false) ∧
    (execute_sql_query (some ("old".data)) (QueryOutcome.dbError ("boom".data))).1 ≠
      some ("old".data) :=
  ⟨(execute_sql_query_file_state ("old".data) ("no creds".data) [] (by decide)).1,
   (execute_sql_query_file_state ("old".data) ("boom".data) [] (by decide)).2.2.1⟩

/-! ## Claim C7 -/

/-- A canonical column absent from a variant's column list reads as null
after reindexing onto the concatenated columns, and the missing-value passes
fill it with the sentinel: `Cell.int 0` for `ref_count:int`, `'_'` otherwise. -/
theorem fillStage_sentinel_fill (d b a : DF) (vcols : List String) {c : String}
    (hc : c ∈ d.cols) (hcv : c ∉ vcols) (row : List Cell) :
    getCell (concatDF d b a).cols
      (fillStageRow (concatDF d b a).cols
        (reindexRow (concatDF d b a).cols vcols row)) c =
      if c = "ref_count:int" then Cell.int 0 else Cell.str ("_".data) := by
  have hc2 : c ∈ (concatDF d b a).cols := mem_unionCols_left (mem_unionCols_left hc)
  have hlen1 : (reindexRow (concatDF d b a).cols vcols row).length =
      (concatDF d b a).cols.length := reindexRow_length _ _ _
  unfold fillStageRow
  rw [getCell_map hc2 (by simp [mapColRow_length, hlen1])]
  rw [getCell_map hc2 (by simp [mapColRow_length, hlen1])]
  rw [getCell_mapColRow hc2 (by simp [hlen1])]
  rw [getCell_reindex row hc2, getCell_not_mem row hcv]
  by_cases hc3 : c = "ref_count:int"
  · rw [if_pos hc3, if_pos hc3]
    decide
  · rw [if_neg hc3, if_neg hc3]
    decide

/-- Claim C7: unification projects onto the canonical column order taken
from the directional (first) table — extra columns are dropped since the
output has exactly the canonical columns; every canonical column absent from
a variant (the bidirectional table `b` or the attribute table `a`) reads as
null after concatenation and is filled with the sentinel (`ref_count:int`
with 0, text columns with `'_'`); and the header artifact holds exactly the
canonical column names, in order, with the same pipe delimiter as the data
file's header line, and nothing else on its line. -/
theorem unify_projection_and_header (d b a t : DF)
    (h : concat_relationship_files d b a = some t)
    (hp : ∀ s ∈ d.cols, '|' ∉ s.data ∧ '\n' ∉ s.data)
    (hne : d.cols ≠ []) :
    t.cols = d.cols ∧
    splitOnChar '|' (firstLine (create_header_file d.cols)) = d.cols.map String.data ∧
    firstLine (dfToCsv t) = firstLine (create_header_file d.cols) ∧
    (∀ c ∈ d.cols, c ∉ b.cols → ∀ row ∈ b.rows,
      getCell (concatDF d b a).cols
        (fillStageRow (concatDF d b a).cols
          (reindexRow (concatDF d b a).cols b.cols row)) c =
        if c = "ref_count:int" then Cell.int 0 else Cell.str ("_".data)) ∧
    (∀ c ∈ d.cols, c ∉ a.cols → ∀ row ∈ a.rows,
      getCell (concatDF d b a).cols
        (fillStageRow (concatDF d b a).cols
          (reindexRow (concatDF d b a).cols a.cols row)) c =
        if c = "ref_count:int" then Cell.int 0 else Cell.str ("_".data)) := by
  rcases concat_relationship_files_inv h with ⟨df5, df6, df8, h5, h6, h8, ht⟩
  have hjoin_nl : ∀ ch ∈ joinChar '|' (d.cols.map String.data), ch ≠ '\n' := by
    intro ch hch he
    rcases mem_joinChar hch with h1 | ⟨p, hp1, hp2⟩
    · rw [he] at h1
      exact absurd h1 (by decide)
    · rcases List.mem_map.mp hp1 with ⟨s, hs1, hs2⟩
      rw [← hs2, he] at hp2
      exact (hp s hs1).2 hp2
  have hh : firstLine (create_header_file d.cols) =
      joinChar '|' (d.cols.map String.data) := by
    unfold create_header_file
    exact firstLine_append_newline [] hjoin_nl
  have hcols : t.cols = d.cols := by
    rw [ht]
    rfl
  refine ⟨hcols, ?_, ?_, ?_, ?_⟩
  · rw [hh]
    refine splitOnChar_joinChar ?_ ?_
    · simp [hne]
    · intro p hp1 hmem
      rcases List.mem_map.mp hp1 with ⟨s, hs1, hs2⟩
      rw [← hs2] at hmem
      exact (hp s hs1).1 hmem
  · unfold dfToCsv
    rw [hcols, firstLine_append_newline _ hjoin_nl, hh]
  · intro c hc hcb row _
    exact fillStage_sentinel_fill d b a b.cols hc hcb row
  · intro c hc hca row _
    exact fillStage_sentinel_fill d b a a.cols hc hca row

/-- Witness for Claim C7 on the concrete example: the output columns are the
directional columns, the header line splits back into exactly them, and the
canonical `phase` column absent from the bidirectional variant is filled
with the `'_'` sentinel in that variant's row. -/
theorem unify_projection_and_header_witness :
    tEx.cols = dEx.cols ∧
    splitOnChar '|' (firstLine (create_header_file dEx.cols)) =
      dEx.cols.map String.data ∧
    getCell (concatDF dEx bEx aEx).cols
      (fillStageRow (concatDF dEx bEx aEx).cols
        (reindexRow (concatDF dEx bEx aEx).cols bEx.cols [Cell.int 2])) "phase" =
      (if "phase" = "ref_count:int" then Cell.int 0 else Cell.str ("_".data)) :=
  ⟨(unify_projection_and_header dEx bEx aEx tEx (by decide) (by decide) (by decide)).1,
   (unify_projection_and_header dEx bEx aEx tEx (by decide) (by decide)
      (by decide)).2.1,
   (unify_projection_and_header dEx bEx aEx tEx (by decide) (by decide)
      (by decide)).2.2.2.1 "phase" (by decide) (by decide) [Cell.int 2] (by decide)⟩

/-! ## Claim C9 -/

/-- Membership in `objectCols` implies membership in the columns. -/
theorem objectCols_subset {df : DF} {c : String} (hc : c ∈ objectCols df) :
    c ∈ df.cols :=
  (List.mem_filter.mp hc).1

/-- Claim C9: `convert_object_to_category` passes every value of every
object-dtype column through `str(x).strip()`: afterwards every such cell is
a string with no surrounding whitespace, and a null cell has become the
literal string `'nan'` (which the unifier's `'nan'`-replacement pass later
relies on). -/
theorem convert_object_strips_and_nan (df : DF) (c : String) (i : Nat)
    (hc : c ∈ objectCols df) (hi : i < df.rows.length)
    (hlen : df.cols.length ≤ (df.rows.getD i []).length) :
    (∃ s, getCell df.cols ((convert_object_to_category df).rows.getD i []) c =
      Cell.str s ∧ strip s = s) ∧
    (getCell df.cols (df.rows.getD i []) c = Cell.null →
      getCell df.cols ((convert_object_to_category df).rows.getD i []) c =
        Cell.str ("nan".data)) := by
  have hrows : (convert_object_to_category df).rows.getD i [] =
      convRow (objectCols df) df.cols (df.rows.getD i []) := by
    unfold convert_object_to_category
    exact getD_map_lt hi [] []
  rw [hrows, getCell_convRow (objectCols_subset hc) hlen, if_pos hc]
  constructor
  · exact ⟨strip (cellToChars (getCell df.cols (df.rows.getD i []) c)),
      rfl, strip_idem _⟩
  · intro hnull
    rw [hnull]
    decide

/-- Witness for Claim C9: in the concrete one-column frame the null cell of
the object column becomes the string `'nan'` after conversion. -/
theorem convert_object_strips_and_nan_witness :
    getCell dfC9.cols ((convert_object_to_category dfC9).rows.getD 0 []) "name" =
      Cell.str ("nan".data) :=
  (convert_object_strips_and_nan dfC9 "name" 0 (by decide) (by decide)
    (by decide)).2 (by decide)

end Resnet
